import Mathlib

/-!
Verification development for the `starmap` data pipeline
(`src/data/build_data.py`): a batch job that extracts star systems and
jumps from an SQLite database, filters systems by name pattern, converts
coordinates from meters to light-years with an Rx(-90°) axis permutation,
referentially filters jumps, and writes binary assets plus a manifest.

Modelling conventions:
- Strings are `List Char` with ASCII digit and ASCII case semantics.
- Python floats are modelled as exact rationals `ℚ` (every arithmetic
  operation the pipeline performs is a single division or negation).
- SQLite cell values are modelled by the `Value` type covering NULL,
  INTEGER and REAL storage classes; on this domain Python `int(v)`
  fails exactly on NULL, and `float(v)` likewise.
- File writes are modelled as a list of write events; a raised Python
  exception is modelled by an `Except`-style error result carrying no
  events.
-/

namespace BuildData

/-- Strings of the modelled program: lists of characters. -/
abbrev Str := List Char

/-- Tests whether `hay` begins with `needle` (character-wise equality). -/
def beginsWith : Str → Str → Bool
  | _, [] => true
  | [], _ :: _ => false
  | a :: as, b :: bs => a == b && beginsWith as bs

/-- Tests whether `needle` occurs as a contiguous substring of `hay`;
models the Python `in` operator on strings. -/
def hasSub : Str → Str → Bool
  | [], needle => needle.isEmpty
  | c :: rest, needle => beginsWith (c :: rest) needle || hasSub rest needle

/-- Lowercases every character; models Python `str.lower` (ASCII). -/
def lowerStr (s : Str) : Str := s.map Char.toLower

/-- Meters per light-year, from `METERS_PER_LY = 9.4607304725808e15`
in `build_data.py` (the IAU light-year). -/
def METERS_PER_LY : ℚ := 9.4607304725808e15

/-- From `transform_xyz` in `build_data.py`: meters to light-years,
then Rx(-90°): `(x, y, z) -> (x, z, -y)`. -/
def transform_xyz (xm ym zm : ℚ) : ℚ × ℚ × ℚ :=
  let xly := xm / METERS_PER_LY
  let yly := ym / METERS_PER_LY
  let zly := zm / METERS_PER_LY
  (xly, zly, -yly)

/-- Core of the regex `V-\d\x7b3\x7d` under `re.IGNORECASE`: a letter V,
a hyphen, then exactly three ASCII digits, consuming the whole input. -/
def vCore : Str → Bool
  | [v, h, d1, d2, d3] =>
    (v == 'V' || v == 'v') && h == '-' && d1.isDigit && d2.isDigit && d3.isDigit
  | _ => false

/-- Core of the regex `AD\d\x7b3\x7d` under `re.IGNORECASE`: letters A
then D, then exactly three ASCII digits, consuming the whole input. -/
def adCore : Str → Bool
  | [a, d, d1, d2, d3] =>
    (a == 'A' || a == 'a') && (d == 'D' || d == 'd') &&
      d1.isDigit && d2.isDigit && d3.isDigit
  | _ => false

/-- Tests whether the last character of `s` is a newline. -/
def endsWithNewline : Str → Bool
  | [] => false
  | [c] => c == '\n'
  | _ :: c :: rest => endsWithNewline (c :: rest)

/-- Semantics of Python `re.match` with a pattern of the shape
`^core$`: the `$` anchor matches at the end of the string or just
before a single newline at the end of the string. -/
def reFullMatch (core : Str → Bool) (s : Str) : Bool :=
  core s || (endsWithNewline s && core s.dropLast)

/-- From `is_filtered_system` in `build_data.py`: true when the name
matches `^V-\d\x7b3\x7d$` or `^AD\d\x7b3\x7d$`, case-insensitively. -/
def is_filtered_system (name : Str) : Bool :=
  reFullMatch vCore name || reFullMatch adCore name

/-- Modelled from the spec wording for the name filter: the entire name
(with no allowance for a trailing newline) matches one of the two
patterns.  Used to compare the spec's claim with the source's
`re.match`-based behaviour. -/
def anchoredMatch (name : Str) : Bool :=
  vCore name || adCore name

/-- From `infer_table` in `build_data.py`: return the first table whose
lowercased name contains one of the keywords; otherwise the first
enumerated table if any table exists, else none. -/
def infer_table (tables : List Str) (needles : List Str) : Option Str :=
  match tables.find? (fun t => needles.any (fun k => hasSub (lowerStr t) k)) with
  | some t => some t
  | none => tables.head?

/-- Keyword list used for the systems table lookup in `main`. -/
def systemKeywords : List Str := ["system".toList]

/-- Keyword list used for the jumps table lookup in `main`. -/
def jumpKeywords : List Str := ["jump".toList, "gate".toList, "link".toList]

/-- SQLite cell values reaching the loader, restricted to the NULL,
INTEGER and REAL storage classes (the storage classes the modelled
claims exercise); in Python these arrive as `None`, `int`, `float`. -/
inductive Value
  | vNull
  | vInt (n : ℤ)
  | vReal (q : ℚ)
deriving DecidableEq

/-- Python `int(v)` on a `Value`: the identity on ints, truncation
toward zero on reals, and a `TypeError` (modelled as `none`) on
`None`. -/
def coerceInt : Value → Option ℤ
  | .vNull => none
  | .vInt n => some n
  | .vReal q => some (q.num.tdiv q.den)

/-- Python `float(v)` on a `Value`: exact on ints and reals, and a
`TypeError` (modelled as `none`) on `None`. -/
def coerceFloat : Value → Option ℚ
  | .vNull => none
  | .vInt n => some (n : ℚ)
  | .vReal q => some q

/-- One row of the resolved systems query: the id cell, the name cell
(text; the claims exercise runs with a resolved name column), and the
three coordinate cells. -/
structure SysRow where
  sid : Value
  name : Str
  x : Value
  y : Value
  z : Value

/-- Which of the three coordinate columns resolved for the systems
table; an unresolved column makes the loader default that coordinate
to `0.0` instead of reading the cell. -/
structure ColCfg where
  hasX : Bool
  hasY : Bool
  hasZ : Bool

/-- A loaded system tuple `(int(sid), nm, xv, yv, zv)` as appended to
the `systems` list in `main`. -/
structure SystemRec where
  sid : ℤ
  name : Str
  x : ℚ
  y : ℚ
  z : ℚ

/-- The fatal exceptions the modelled run can raise: no systems table
(`SystemExit`), a coordinate cell `float()` failure, an id cell
`int()` failure, and an `array('I')` append out of unsigned 32-bit
range (`OverflowError`). -/
inductive Err
  | noSystemsTable
  | coordNotFloat
  | idNotInt
  | u32Overflow
deriving DecidableEq

/-- Reads a coordinate cell: `float(row[col])` when the column
resolved, else the `0.0` default. -/
def resolveCoord (has : Bool) (v : Value) : Option ℚ :=
  if has then coerceFloat v else some 0

/-- One iteration of the systems loading loop in `main`: the
name-exclusion check runs first (`.ok none` means the row was filtered
out and counted); only then are x, y, z coerced to float and the id
coerced to int, in the source's evaluation order. -/
def loadStep (cfg : ColCfg) (r : SysRow) : Except Err (Option SystemRec) :=
  if is_filtered_system r.name then .ok none
  else
    match resolveCoord cfg.hasX r.x with
    | none => .error .coordNotFloat
    | some xv =>
      match resolveCoord cfg.hasY r.y with
      | none => .error .coordNotFloat
      | some yv =>
        match resolveCoord cfg.hasZ r.z with
        | none => .error .coordNotFloat
        | some zv =>
          match coerceInt r.sid with
          | none => .error .idNotInt
          | some sid => .ok (some ⟨sid, r.name, xv, yv, zv⟩)

/-- The systems loading loop of `main`: returns the surviving systems
in row order together with `filtered_count`, or the first fatal
exception. -/
def loadSystems (cfg : ColCfg) : List SysRow → Except Err (List SystemRec × ℕ)
  | [] => .ok ([], 0)
  | r :: rest =>
    match loadStep cfg r with
    | .error e => .error e
    | .ok none =>
      match loadSystems cfg rest with
      | .error e => .error e
      | .ok (l, c) => .ok (l, c + 1)
    | .ok (some s) =>
      match loadSystems cfg rest with
      | .error e => .error e
      | .ok (l, c) => .ok (s :: l, c)

/-- One row of the resolved jumps query: the source and target cells. -/
structure JumpRow where
  s : Value
  t : Value

/-- The jumps loading loop of `main`: rows whose source or target cell
is NULL are skipped; the rest are coerced to int pairs.  On the
modelled value domain `int()` succeeds exactly on non-NULL cells, so
the source's `is not None` guard coincides with coercibility. -/
def loadJumps (rows : List JumpRow) : List (ℤ × ℤ) :=
  rows.filterMap (fun r =>
    match coerceInt r.s, coerceInt r.t with
    | some a, some b => some (a, b)
    | _, _ => none)

/-- Exclusive upper bound of Python's `array('I')` element range. -/
def U32 : ℤ := 4294967296

/-- The `ids` array building loop: appending each surviving system's id
to `array('I')`, which raises `OverflowError` outside `[0, 2^32)`. -/
def buildIds : List SystemRec → Except Err (List ℤ)
  | [] => .ok []
  | s :: rest =>
    if 0 ≤ s.sid ∧ s.sid < U32 then
      match buildIds rest with
      | .error e => .error e
      | .ok l => .ok (s.sid :: l)
    else .error .u32Overflow

/-- The `positions` array building loop: three consecutive transformed
components per surviving system, in system order. -/
def positionsOf : List SystemRec → List ℚ
  | [] => []
  | s :: rest =>
    (transform_xyz s.x s.y s.z).1 ::
      (transform_xyz s.x s.y s.z).2.1 ::
        (transform_xyz s.x s.y s.z).2.2 :: positionsOf rest

/-- The jump filtering loop of `main`: a pair survives when both
endpoints are members of the valid id set, in which case source then
target are appended to `array('I')` (with its range check); otherwise
`filtered_jumps` is incremented. -/
def buildFlatJumps : List (ℤ × ℤ) → List ℤ → Except Err (List ℤ × ℕ)
  | [], _ => .ok ([], 0)
  | (a, b) :: rest, valid =>
    if valid.contains a && valid.contains b then
      if 0 ≤ a ∧ a < U32 then
        if 0 ≤ b ∧ b < U32 then
          match buildFlatJumps rest valid with
          | .error e => .error e
          | .ok (l, c) => .ok (a :: b :: l, c)
        else .error .u32Overflow
      else .error .u32Overflow
    else
      match buildFlatJumps rest valid with
      | .error e => .error e
      | .ok (l, c) => .ok (l, c + 1)

/-- The jump pairs that survive the referential filter, in load order. -/
def survivingJumps (jumps : List (ℤ × ℤ)) (valid : List ℤ) : List (ℤ × ℤ) :=
  jumps.filter (fun p => valid.contains p.1 && valid.contains p.2)

/-- Flattens jump pairs into the alternating source,target sequence. -/
def flattenPairs : List (ℤ × ℤ) → List ℤ
  | [] => []
  | (a, b) :: rest => a :: b :: flattenPairs rest

/-- The counts record of `manifest.json` (the remaining manifest fields
are compile-time constants of the source). -/
structure Manifest where
  systems : ℕ
  jumps : ℕ
deriving DecidableEq

/-- The five asset files the run writes. -/
inductive FileName
  | positionsBin
  | idsBin
  | namesJson
  | jumpsBin
  | manifestJson
deriving DecidableEq

/-- Contents written to an asset file.  The name map is modelled as the
association list of `(id, name)` pairs; the JSON file keys each entry
by the decimal string of the id. -/
inductive FileContent
  | floats (xs : List ℚ)
  | u32s (xs : List ℤ)
  | nameMap (m : List (ℤ × Str))
  | manifest (m : Manifest)
deriving DecidableEq

/-- A file write performed by the run. -/
abbrev WriteEvent := FileName × FileContent

/-- The source database as the run observes it: the enumerated table
names, and per table the resolved coordinate-column configuration, the
systems rows, whether both jump columns resolve, and the jump rows. -/
structure DB where
  tables : List Str
  colCfgOf : Str → ColCfg
  sysRowsOf : Str → List SysRow
  jumpColsOf : Str → Bool
  jumpRowsOf : Str → List JumpRow

/-- The operator-supplied table overrides (`--systems-table`,
`--jumps-table`). -/
structure Args where
  systems_table : Option Str
  jumps_table : Option Str

/-- No overrides supplied. -/
def defaultArgs : Args := ⟨none, none⟩

/-- Resolution of the systems table in `main`: the override if given,
else keyword inference. -/
def resolvedSystemsTable (db : DB) (args : Args) : Option Str :=
  match args.systems_table with
  | some t => some t
  | none => infer_table db.tables systemKeywords

/-- Resolution of the jumps table in `main`: the override if given,
else keyword inference. -/
def resolvedJumpsTable (db : DB) (args : Args) : Option Str :=
  match args.jumps_table with
  | some t => some t
  | none => infer_table db.tables jumpKeywords

/-- The jumps loaded by `main`: none when no jumps table resolved or
its source/target columns did not both resolve. -/
def loadedJumps (db : DB) (args : Args) : List (ℤ × ℤ) :=
  match resolvedJumpsTable db args with
  | none => []
  | some jt => if db.jumpColsOf jt then loadJumps (db.jumpRowsOf jt) else []

/-- The `main` pipeline: resolve tables, load systems and jumps, build
the output arrays, then perform the five file writes.  The result is
the list of write events together with the fatal exception, if any; an
exception aborts the run before any write. -/
def run (db : DB) (args : Args) : List WriteEvent × Option Err :=
  match resolvedSystemsTable db args with
  | none => ([], some .noSystemsTable)
  | some st =>
    match loadSystems (db.colCfgOf st) (db.sysRowsOf st) with
    | .error e => ([], some e)
    | .ok (systems, _) =>
      let jumps := loadedJumps db args
      let valid := systems.map (fun s => s.sid)
      match buildIds systems with
      | .error e => ([], some e)
      | .ok ids =>
        match buildFlatJumps jumps valid with
        | .error e => ([], some e)
        | .ok (flat, _) =>
          ([(.positionsBin, .floats (positionsOf systems)),
            (.idsBin, .u32s ids),
            (.namesJson, .nameMap (systems.map (fun s => (s.sid, s.name)))),
            (.jumpsBin, .u32s flat),
            (.manifestJson, .manifest ⟨systems.length, jumps.length⟩)], none)

theorem bool_regroup (v a e vd ad : Bool) :
    ((v || (e && vd)) || (a || (e && ad))) = ((v || a) || (e && (vd || ad))) := by
  revert v a e vd ad
  decide

/-- Systems rows of the worked example database: `(1, "Sol", origin)`,
`(2, "V-001", origin)` and `(3, "Alpha", one light-year along x)`. -/
def demoRows : List SysRow :=
  [⟨Value.vInt 1, "Sol".toList, Value.vReal 0, Value.vReal 0, Value.vReal 0⟩,
   ⟨Value.vInt 2, "V-001".toList, Value.vReal 0, Value.vReal 0, Value.vReal 0⟩,
   ⟨Value.vInt 3, "Alpha".toList, Value.vReal METERS_PER_LY, Value.vReal 0, Value.vReal 0⟩]

/-- The systems surviving the name filter on `demoRows`. -/
def demoSystems : List SystemRec :=
  [⟨1, "Sol".toList, 0, 0, 0⟩, ⟨3, "Alpha".toList, METERS_PER_LY, 0, 0⟩]

/-- The worked example database: a `systems` table with `demoRows`, a
`jumps` table with rows `(1,2)`, `(1,3)`, `(3,99)`. -/
def demoDB : DB where
  tables := ["systems".toList, "jumps".toList]
  colCfgOf := fun _ => ⟨true, true, true⟩
  sysRowsOf := fun t => if t = "systems".toList then demoRows else []
  jumpColsOf := fun _ => true
  jumpRowsOf := fun t =>
    if t = "jumps".toList then
      [⟨Value.vInt 1, Value.vInt 2⟩, ⟨Value.vInt 1, Value.vInt 3⟩,
       ⟨Value.vInt 3, Value.vInt 99⟩]
    else []

/-- A database with no tables at all. -/
def emptyDB : DB where
  tables := []
  colCfgOf := fun _ => ⟨true, true, true⟩
  sysRowsOf := fun _ => []
  jumpColsOf := fun _ => true
  jumpRowsOf := fun _ => []

end BuildData

namespace BuildData

/-- C1: for every input triple, `transform_xyz` returns exactly
`(xm/L, zm/L, -ym/L)` with `L` the meters-per-light-year constant; in
particular it fixes the origin, maps `(L,0,0)` to `(1,0,0)`,
`(L,2L,3L)` to `(1,3,-2)` and `(-5L,10L,-3L)` to `(-5,-3,-10)`. -/
theorem transform_xyz_spec :
    (∀ xm ym zm : ℚ, transform_xyz xm ym zm =
      (xm / METERS_PER_LY, zm / METERS_PER_LY, -ym / METERS_PER_LY)) ∧
    transform_xyz 0 0 0 = (0, 0, 0) ∧
    transform_xyz METERS_PER_LY 0 0 = (1, 0, 0) ∧
    transform_xyz METERS_PER_LY (2 * METERS_PER_LY) (3 * METERS_PER_LY) = (1, 3, -2) ∧
    transform_xyz (-5 * METERS_PER_LY) (10 * METERS_PER_LY) (-3 * METERS_PER_LY) =
      (-5, -3, -10) := by
  refine ⟨fun xm ym zm => ?_, by norm_num [transform_xyz, METERS_PER_LY],
    by norm_num [transform_xyz, METERS_PER_LY],
    by norm_num [transform_xyz, METERS_PER_LY],
    by norm_num [transform_xyz, METERS_PER_LY]⟩
  simp [transform_xyz, neg_div]

/-- C2 counterexample: on the name `"V-001\n"` the source's filter
returns true although the entire name does not match either pattern, so
the claimed equivalence with a fully anchored match fails. -/
theorem is_filtered_anchor_counterexample :
    ¬ (is_filtered_system ['V', '-', '0', '0', '1', '\n'] = true ↔
       anchoredMatch ['V', '-', '0', '0', '1', '\n'] = true) := by
  decide

/-- C2 amended: the filter returns true exactly when the entire name
matches one of the two case-insensitive patterns, or the name is such a
match followed by a single trailing newline; the spec's example names
behave as listed. -/
theorem is_filtered_spec_amended :
    (∀ name : Str, is_filtered_system name =
      (anchoredMatch name || (endsWithNewline name && anchoredMatch name.dropLast))) ∧
    is_filtered_system "V-001".toList = true ∧
    is_filtered_system "v-999".toList = true ∧
    is_filtered_system "AD001".toList = true ∧
    is_filtered_system "ad123".toList = true ∧
    is_filtered_system "V-1".toList = false ∧
    is_filtered_system "V-0001".toList = false ∧
    is_filtered_system "ADX001".toList = false ∧
    is_filtered_system "Alpha-001".toList = false := by
  refine ⟨fun name => ?_, by decide, by decide, by decide, by decide,
    by decide, by decide, by decide, by decide⟩
  simp only [is_filtered_system, reFullMatch, anchoredMatch]
  exact bool_regroup (vCore name) (adCore name) (endsWithNewline name)
    (vCore name.dropLast) (adCore name.dropLast)

theorem flattenPairs_cons (a b : ℤ) (rest : List (ℤ × ℤ)) :
    flattenPairs ((a, b) :: rest) = a :: b :: flattenPairs rest := rfl

theorem survivingJumps_cons (a b : ℤ) (rest : List (ℤ × ℤ)) (valid : List ℤ) :
    survivingJumps ((a, b) :: rest) valid =
      (if valid.contains a && valid.contains b then
        (a, b) :: survivingJumps rest valid
       else survivingJumps rest valid) := by
  simp [survivingJumps, List.filter_cons]

theorem buildFlatJumps_ok (jumps : List (ℤ × ℤ)) (valid : List ℤ) :
    ∀ flat cnt, buildFlatJumps jumps valid = .ok (flat, cnt) →
      flat = flattenPairs (survivingJumps jumps valid) ∧
      cnt + (survivingJumps jumps valid).length = jumps.length := by
  induction jumps with
  | nil =>
    intro flat cnt h
    simp only [buildFlatJumps, Except.ok.injEq, Prod.mk.injEq] at h
    simp [← h.1, ← h.2, survivingJumps, flattenPairs]
  | cons p rest ih =>
    obtain ⟨a, b⟩ := p
    intro flat cnt h
    simp only [buildFlatJumps] at h
    split at h
    · rename_i hmem
      have hfil : survivingJumps ((a, b) :: rest) valid =
          (a, b) :: survivingJumps rest valid := by
        rw [survivingJumps_cons, if_pos hmem]
      split at h
      · split at h
        · cases hrec : buildFlatJumps rest valid with
          | error e => rw [hrec] at h; simp at h
          | ok q =>
            obtain ⟨l, c⟩ := q
            rw [hrec] at h
            simp only [Except.ok.injEq, Prod.mk.injEq] at h
            obtain ⟨h1, h2⟩ := h
            obtain ⟨hl, hc⟩ := ih l c hrec
            subst hl
            subst h2
            constructor
            · rw [hfil, flattenPairs_cons, ← h1]
            · rw [hfil]
              simp only [List.length_cons]
              omega
        · simp at h
      · simp at h
    · rename_i hmem
      have hfil : survivingJumps ((a, b) :: rest) valid =
          survivingJumps rest valid := by
        rw [survivingJumps_cons, if_neg hmem]
      cases hrec : buildFlatJumps rest valid with
      | error e => rw [hrec] at h; simp at h
      | ok q =>
        obtain ⟨l, c⟩ := q
        rw [hrec] at h
        simp only [Except.ok.injEq, Prod.mk.injEq] at h
        obtain ⟨h1, h2⟩ := h
        obtain ⟨hl, hc⟩ := ih l c hrec
        subst hl
        subst h2
        constructor
        · rw [hfil, ← h1]
        · rw [hfil]
          simp only [List.length_cons]
          omega

/-- C3: the flattened jump output contains exactly the loaded pairs
whose two endpoints both appear among the surviving system ids, kept in
load order and flattened source-then-target; non-surviving pairs are
only counted. -/
theorem flat_jumps_spec (jumps : List (ℤ × ℤ)) (valid : List ℤ)
    (flat : List ℤ) (cnt : ℕ)
    (h : buildFlatJumps jumps valid = .ok (flat, cnt)) :
    flat = flattenPairs (survivingJumps jumps valid) ∧
    cnt + (survivingJumps jumps valid).length = jumps.length ∧
    ∀ a b : ℤ, ((a, b) ∈ survivingJumps jumps valid ↔
      ((a, b) ∈ jumps ∧ a ∈ valid ∧ b ∈ valid)) := by
  obtain ⟨h1, h2⟩ := buildFlatJumps_ok jumps valid flat cnt h
  refine ⟨h1, h2, fun a b => ?_⟩
  simp [survivingJumps, List.mem_filter, List.contains, and_assoc]

theorem flat_jumps_spec_witness :
    [(1:ℤ), 3] =
      flattenPairs (survivingJumps [((1:ℤ), (2:ℤ)), (1, 3), (3, 99)] [1, 3]) ∧
    2 + (survivingJumps [((1:ℤ), (2:ℤ)), (1, 3), (3, 99)] [1, 3]).length = 3 ∧
    (((1:ℤ), (3:ℤ)) ∈ survivingJumps [((1:ℤ), (2:ℤ)), (1, 3), (3, 99)] [1, 3] ↔
      (((1:ℤ), (3:ℤ)) ∈ [((1:ℤ), (2:ℤ)), (1, 3), (3, 99)] ∧
        (1:ℤ) ∈ [(1:ℤ), 3] ∧ (3:ℤ) ∈ [(1:ℤ), 3])) := by
  have h := flat_jumps_spec [((1:ℤ), (2:ℤ)), (1, 3), (3, 99)] [1, 3] [1, 3] 2 rfl
  exact ⟨h.1, h.2.1, h.2.2 1 3⟩

/-- C5 counterexample: a database with the single table `stars`, whose
name contains none of the jump keywords, still resolves a jumps table
(the first enumerated table), contradicting the claim that it resolves
to absent. -/
theorem jumps_table_fallback_counterexample :
    (∀ t ∈ ["stars".toList], (jumpKeywords.any (fun k => hasSub (lowerStr t) k)) = false) ∧
    infer_table ["stars".toList] jumpKeywords = some "stars".toList ∧
    infer_table ["stars".toList] jumpKeywords ≠ none := by
  refine ⟨by decide, by decide, by decide⟩

/-- C5 amended: when no table name contains a jump keyword, the jumps
table resolves by the same fallback as the systems table: the first
enumerated table when any table exists, and absent only when the
database has no tables. -/
theorem infer_table_fallback (tables : List Str)
    (h : ∀ t ∈ tables, (jumpKeywords.any (fun k => hasSub (lowerStr t) k)) = false) :
    infer_table tables jumpKeywords = tables.head? := by
  have hf : tables.find? (fun t => jumpKeywords.any (fun k => hasSub (lowerStr t) k)) = none :=
    List.find?_eq_none.mpr (fun x hx => by simp [h x hx])
  simp [infer_table, hf]

theorem infer_table_fallback_witness :
    infer_table ["stars".toList, "planets".toList] jumpKeywords =
      some "stars".toList :=
  infer_table_fallback ["stars".toList, "planets".toList] (by decide)

/-- C6: a run that ends in a fatal error performs no file write: every
write event of the pipeline happens only on the all-loading-succeeded
path. -/
theorem abort_writes_nothing (db : DB) (args : Args) (e : Err)
    (h : (run db args).2 = some e) : (run db args).1 = [] := by
  cases hrs : resolvedSystemsTable db args with
  | none => simp [run, hrs]
  | some st =>
    cases hls : loadSystems (db.colCfgOf st) (db.sysRowsOf st) with
    | error e2 => simp [run, hrs, hls]
    | ok p =>
      obtain ⟨systems, fc⟩ := p
      cases hbi : buildIds systems with
      | error e2 => simp [run, hrs, hls, hbi]
      | ok ids =>
        cases hbf : buildFlatJumps (loadedJumps db args)
            (systems.map (fun s => s.sid)) with
        | error e2 => simp [run, hrs, hls, hbi, hbf]
        | ok q =>
          obtain ⟨flat, c⟩ := q
          simp [run, hrs, hls, hbi, hbf] at h

theorem abort_writes_nothing_witness :
    (run emptyDB defaultArgs).2 = some Err.noSystemsTable ∧
    (run emptyDB defaultArgs).1 = [] :=
  ⟨rfl, abort_writes_nothing emptyDB defaultArgs Err.noSystemsTable rfl⟩

/-- C8: the pipeline is deterministic: its output write events and exit
status are a function of the source database and the overrides alone,
so two runs on equal inputs produce identical outputs. -/
theorem pipeline_deterministic (db1 db2 : DB) (args1 args2 : Args)
    (h1 : db1 = db2) (h2 : args1 = args2) : run db1 args1 = run db2 args2 := by
  rw [h1, h2]

theorem pipeline_deterministic_witness :
    run demoDB defaultArgs = run demoDB defaultArgs :=
  pipeline_deterministic demoDB demoDB defaultArgs defaultArgs rfl rfl

/-- C9: a row whose name matches an exclusion pattern is skipped and
counted before any coercion is attempted: whatever raw values sit in
its id and coordinate cells, the step result is a skip, never an
error, and the rest of the load proceeds as if the row were absent
(with the filtered count incremented). -/
theorem filtered_row_never_aborts (cfg : ColCfg) (sid : Value) (name : Str)
    (x y z : Value) (h : is_filtered_system name = true) :
    loadStep cfg ⟨sid, name, x, y, z⟩ = .ok none ∧
    (∀ rest l c, loadSystems cfg rest = .ok (l, c) →
      loadSystems cfg (⟨sid, name, x, y, z⟩ :: rest) = .ok (l, c + 1)) ∧
    (∀ rest e, loadSystems cfg rest = .error e →
      loadSystems cfg (⟨sid, name, x, y, z⟩ :: rest) = .error e) := by
  have hstep : loadStep cfg ⟨sid, name, x, y, z⟩ = .ok none := by
    simp [loadStep, h]
  refine ⟨hstep, ?_, ?_⟩
  · intro rest l c hr
    simp [loadSystems, hstep, hr]
  · intro rest e hr
    simp [loadSystems, hstep, hr]

theorem filtered_row_never_aborts_witness :
    coerceInt Value.vNull = none ∧ coerceFloat Value.vNull = none ∧
    loadSystems ⟨true, true, true⟩
      [⟨Value.vNull, "V-001".toList, Value.vNull, Value.vNull, Value.vNull⟩] =
      .ok ([], 1) := by
  refine ⟨rfl, rfl, ?_⟩
  have h := filtered_row_never_aborts ⟨true, true, true⟩ Value.vNull
    ("V-001".toList) Value.vNull Value.vNull Value.vNull (by decide)
  exact h.2.1 [] [] 0 rfl

/-- C4: on a successful run, the manifest counts record carries the
number of surviving systems and the number of all loaded jumps — the
count taken before the referential jump filter. -/
theorem manifest_counts_spec (db : DB) (args : Args) (st : Str)
    (sys : List SystemRec) (fc : ℕ) (events : List WriteEvent)
    (h1 : resolvedSystemsTable db args = some st)
    (h2 : loadSystems (db.colCfgOf st) (db.sysRowsOf st) = .ok (sys, fc))
    (h3 : run db args = (events, none)) :
    (FileName.manifestJson,
      FileContent.manifest ⟨sys.length, (loadedJumps db args).length⟩) ∈ events := by
  cases hbi : buildIds sys with
  | error e => simp [run, h1, h2, hbi] at h3
  | ok ids =>
    cases hbf : buildFlatJumps (loadedJumps db args)
        (sys.map (fun s => s.sid)) with
    | error e => simp [run, h1, h2, hbi, hbf] at h3
    | ok q =>
      obtain ⟨flat, c⟩ := q
      simp only [run, h1, h2, hbi, hbf, Prod.mk.injEq] at h3
      rw [← h3.1]
      simp

theorem manifest_counts_witness :
    (FileName.manifestJson, FileContent.manifest ⟨2, 3⟩) ∈
      (run demoDB defaultArgs).1 ∧
    (survivingJumps (loadedJumps demoDB defaultArgs) [1, 3]).length = 1 := by
  have hsnd : (run demoDB defaultArgs).2 = none := rfl
  have h3 : run demoDB defaultArgs = ((run demoDB defaultArgs).1, none) := by
    rw [← hsnd]
  refine ⟨?_, rfl⟩
  exact manifest_counts_spec demoDB defaultArgs ("systems".toList) demoSystems 1
    ((run demoDB defaultArgs).1) rfl rfl h3

theorem buildIds_ok_map (systems : List SystemRec) :
    ∀ ids, buildIds systems = .ok ids → ids = systems.map (fun s => s.sid) := by
  induction systems with
  | nil =>
    intro ids h
    simp only [buildIds, Except.ok.injEq] at h
    simp [← h]
  | cons s rest ih =>
    intro ids h
    simp only [buildIds] at h
    split at h
    · cases hrec : buildIds rest with
      | error e => rw [hrec] at h; simp at h
      | ok l =>
        rw [hrec] at h
        simp only [Except.ok.injEq] at h
        rw [← h, ih l hrec, List.map_cons]
    · simp at h

theorem positionsOf_length (systems : List SystemRec) :
    (positionsOf systems).length = 3 * systems.length := by
  induction systems with
  | nil => simp [positionsOf]
  | cons s rest ih =>
    simp only [positionsOf, List.length_cons, ih]
    ring

theorem positionsOf_getElem (systems : List SystemRec) :
    ∀ i s, systems[i]? = some s →
      (positionsOf systems)[3 * i]? = some (transform_xyz s.x s.y s.z).1 ∧
      (positionsOf systems)[3 * i + 1]? = some (transform_xyz s.x s.y s.z).2.1 ∧
      (positionsOf systems)[3 * i + 2]? = some (transform_xyz s.x s.y s.z).2.2 := by
  induction systems with
  | nil => intro i s h; simp at h
  | cons t rest ih =>
    intro i s h
    cases i with
    | zero =>
      rw [List.getElem?_cons_zero, Option.some.injEq] at h
      subst h
      simp [positionsOf]
    | succ n =>
      rw [List.getElem?_cons_succ] at h
      obtain ⟨h1, h2, h3⟩ := ih n s h
      refine ⟨?_, ?_, ?_⟩
      · rw [show 3 * (n + 1) = 3 * n + 1 + 1 + 1 by ring]
        simp only [positionsOf, List.getElem?_cons_succ]
        exact h1
      · rw [show 3 * (n + 1) + 1 = 3 * n + 1 + 1 + 1 + 1 by ring]
        simp only [positionsOf, List.getElem?_cons_succ]
        exact h2
      · rw [show 3 * (n + 1) + 2 = 3 * n + 2 + 1 + 1 + 1 by ring]
        simp only [positionsOf, List.getElem?_cons_succ]
        exact h3

theorem loadSystems_names (cfg : ColCfg) (rows : List SysRow) :
    ∀ systems fc, loadSystems cfg rows = .ok (systems, fc) →
      systems.map (fun s => s.name) =
        (rows.filter (fun r => !is_filtered_system r.name)).map (fun r => r.name) := by
  induction rows with
  | nil =>
    intro systems fc h
    simp only [loadSystems, Except.ok.injEq, Prod.mk.injEq] at h
    simp [← h.1]
  | cons r rest ih =>
    intro systems fc h
    simp only [loadSystems] at h
    cases hfil : is_filtered_system r.name with
    | true =>
      rw [show loadStep cfg r = .ok none by simp [loadStep, hfil]] at h
      cases hrec : loadSystems cfg rest with
      | error e => rw [hrec] at h; simp at h
      | ok p =>
        obtain ⟨l, c⟩ := p
        rw [hrec] at h
        simp only [Except.ok.injEq, Prod.mk.injEq] at h
        rw [← h.1, List.filter_cons, if_neg (by simp [hfil]), ih l c hrec]
    | false =>
      cases hx : resolveCoord cfg.hasX r.x with
      | none => rw [show loadStep cfg r = .error .coordNotFloat by
          simp [loadStep, hfil, hx]] at h; simp at h
      | some xv =>
        cases hy : resolveCoord cfg.hasY r.y with
        | none => rw [show loadStep cfg r = .error .coordNotFloat by
            simp [loadStep, hfil, hx, hy]] at h; simp at h
        | some yv =>
          cases hz : resolveCoord cfg.hasZ r.z with
          | none => rw [show loadStep cfg r = .error .coordNotFloat by
              simp [loadStep, hfil, hx, hy, hz]] at h; simp at h
          | some zv =>
            cases hid : coerceInt r.sid with
            | none => rw [show loadStep cfg r = .error .idNotInt by
                simp [loadStep, hfil, hx, hy, hz, hid]] at h; simp at h
            | some sid =>
              rw [show loadStep cfg r = .ok (some ⟨sid, r.name, xv, yv, zv⟩) by
                simp [loadStep, hfil, hx, hy, hz, hid]] at h
              cases hrec : loadSystems cfg rest with
              | error e => rw [hrec] at h; simp at h
              | ok p =>
                obtain ⟨l, c⟩ := p
                rw [hrec] at h
                simp only [Except.ok.injEq, Prod.mk.injEq] at h
                rw [← h.1, List.filter_cons, if_pos (by simp [hfil]),
                  List.map_cons, List.map_cons, ih l c hrec]

/-- C7: the positions array holds exactly three entries per id array
entry; the id at position `i` is the id of the `i`-th surviving
system, whose transformed coordinates occupy positions `3i`, `3i+1`,
`3i+2`; and the surviving systems keep the database load order (the
name filter drops rows without reordering). -/
theorem ids_positions_parallel (systems : List SystemRec) (ids : List ℤ)
    (h : buildIds systems = .ok ids) :
    ids = systems.map (fun s => s.sid) ∧
    (positionsOf systems).length = 3 * ids.length ∧
    (∀ i s, systems[i]? = some s →
      ids[i]? = some s.sid ∧
      (positionsOf systems)[3 * i]? = some (transform_xyz s.x s.y s.z).1 ∧
      (positionsOf systems)[3 * i + 1]? = some (transform_xyz s.x s.y s.z).2.1 ∧
      (positionsOf systems)[3 * i + 2]? = some (transform_xyz s.x s.y s.z).2.2) ∧
    (∀ cfg rows fc, loadSystems cfg rows = .ok (systems, fc) →
      systems.map (fun s => s.name) =
        (rows.filter (fun r => !is_filtered_system r.name)).map (fun r => r.name)) := by
  have hmap := buildIds_ok_map systems ids h
  subst hmap
  refine ⟨rfl, ?_, ?_, ?_⟩
  · rw [positionsOf_length, List.length_map]
  · intro i s hs
    refine ⟨?_, positionsOf_getElem systems i s hs⟩
    rw [List.getElem?_map, hs]
    rfl
  · intro cfg rows fc hl
    exact loadSystems_names cfg rows systems fc hl

theorem ids_positions_parallel_witness :
    [(1:ℤ), 3] = demoSystems.map (fun s => s.sid) ∧
    (positionsOf demoSystems).length = 3 * [(1:ℤ), 3].length ∧
    (positionsOf demoSystems)[3]? = some (transform_xyz METERS_PER_LY 0 0).1 ∧
    demoSystems.map (fun s => s.name) =
      (demoRows.filter (fun r => !is_filtered_system r.name)).map (fun r => r.name) := by
  have h := ids_positions_parallel demoSystems [1, 3] rfl
  refine ⟨h.1, h.2.1, ?_, h.2.2.2 ⟨true, true, true⟩ demoRows 1 rfl⟩
  have h2 := (h.2.2.1 1 ⟨3, "Alpha".toList, METERS_PER_LY, 0, 0⟩ rfl).2.1
  simpa using h2

theorem buildIds_range (systems : List SystemRec) :
    ∀ ids, buildIds systems = .ok ids → ∀ n ∈ ids, 0 ≤ n ∧ n < U32 := by
  induction systems with
  | nil =>
    intro ids h
    simp only [buildIds, Except.ok.injEq] at h
    simp [← h]
  | cons s rest ih =>
    intro ids h
    simp only [buildIds] at h
    split at h
    · rename_i hrange
      cases hrec : buildIds rest with
      | error e => rw [hrec] at h; simp at h
      | ok l =>
        rw [hrec] at h
        simp only [Except.ok.injEq] at h
        intro n hn
        rw [← h] at hn
        rcases List.mem_cons.mp hn with heq | hmem
        · rw [heq]; exact hrange
        · exact ih l hrec n hmem
    · simp at h

theorem buildFlatJumps_range (jumps : List (ℤ × ℤ)) (valid : List ℤ) :
    ∀ flat cnt, buildFlatJumps jumps valid = .ok (flat, cnt) →
      ∀ n ∈ flat, 0 ≤ n ∧ n < U32 := by
  induction jumps with
  | nil =>
    intro flat cnt h
    simp only [buildFlatJumps, Except.ok.injEq, Prod.mk.injEq] at h
    simp [← h.1]
  | cons p rest ih =>
    obtain ⟨a, b⟩ := p
    intro flat cnt h
    simp only [buildFlatJumps] at h
    split at h
    · split at h
      · rename_i hra
        split at h
        · rename_i hrb
          cases hrec : buildFlatJumps rest valid with
          | error e => rw [hrec] at h; simp at h
          | ok q =>
            obtain ⟨l, c⟩ := q
            rw [hrec] at h
            simp only [Except.ok.injEq, Prod.mk.injEq] at h
            intro n hn
            rw [← h.1] at hn
            rcases List.mem_cons.mp hn with heq | hn2
            · rw [heq]; exact hra
            · rcases List.mem_cons.mp hn2 with heq | hn3
              · rw [heq]; exact hrb
              · exact ih l c hrec n hn3
        · simp at h
      · simp at h
    · cases hrec : buildFlatJumps rest valid with
      | error e => rw [hrec] at h; simp at h
      | ok q =>
        obtain ⟨l, c⟩ := q
        rw [hrec] at h
        simp only [Except.ok.injEq, Prod.mk.injEq] at h
        intro n hn
        rw [← h.1] at hn
        exact ih l c hrec n hn

/-- C10: a run that completes successfully emitted only unsigned 32-bit
values in the ids file and in the jumps file: `array('I')` raises on
any value outside `[0, 2^32)`, so success bounds every written id. -/
theorem success_ids_in_u32 (db : DB) (args : Args) (events : List WriteEvent)
    (xs : List ℤ) (h : run db args = (events, none)) :
    ((FileName.idsBin, FileContent.u32s xs) ∈ events →
      ∀ n ∈ xs, 0 ≤ n ∧ n < U32) ∧
    ((FileName.jumpsBin, FileContent.u32s xs) ∈ events →
      ∀ n ∈ xs, 0 ≤ n ∧ n < U32) := by
  cases hrs : resolvedSystemsTable db args with
  | none => simp [run, hrs] at h
  | some st =>
    cases hls : loadSystems (db.colCfgOf st) (db.sysRowsOf st) with
    | error e => simp [run, hrs, hls] at h
    | ok p =>
      obtain ⟨systems, fc⟩ := p
      cases hbi : buildIds systems with
      | error e => simp [run, hrs, hls, hbi] at h
      | ok ids =>
        cases hbf : buildFlatJumps (loadedJumps db args)
            (systems.map (fun s => s.sid)) with
        | error e => simp [run, hrs, hls, hbi, hbf] at h
        | ok q =>
          obtain ⟨flat, c⟩ := q
          simp only [run, hrs, hls, hbi, hbf, Prod.mk.injEq] at h
          rw [← h.1]
          constructor
          · intro hmem
            simp only [List.mem_cons, List.not_mem_nil, or_false,
              Prod.mk.injEq] at hmem
            rcases hmem with ⟨hf, _⟩ | ⟨_, hc⟩ | ⟨hf, _⟩ | ⟨hf, _⟩ | ⟨hf, _⟩
            · exact absurd hf (by simp)
            · rw [FileContent.u32s.inj hc]
              exact buildIds_range systems ids hbi
            · exact absurd hf (by simp)
            · exact absurd hf (by simp)
            · exact absurd hf (by simp)
          · intro hmem
            simp only [List.mem_cons, List.not_mem_nil, or_false,
              Prod.mk.injEq] at hmem
            rcases hmem with ⟨hf, _⟩ | ⟨hf, _⟩ | ⟨hf, _⟩ | ⟨_, hc⟩ | ⟨hf, _⟩
            · exact absurd hf (by simp)
            · exact absurd hf (by simp)
            · exact absurd hf (by simp)
            · rw [FileContent.u32s.inj hc]
              exact buildFlatJumps_range (loadedJumps db args)
                (systems.map (fun s => s.sid)) flat c hbf
            · exact absurd hf (by simp)

theorem success_ids_in_u32_witness :
    0 ≤ (3:ℤ) ∧ (3:ℤ) < U32 := by
  have hsnd : (run demoDB defaultArgs).2 = none := rfl
  have h3 : run demoDB defaultArgs = ((run demoDB defaultArgs).1, none) := by
    rw [← hsnd]
  have h := success_ids_in_u32 demoDB defaultArgs
    ((run demoDB defaultArgs).1) [1, 3] h3
  exact h.1 (by decide) 3 (by simp)

end BuildData
